import Mathlib

/-!
Verification development for the account-rotation proxy.

This file gives a shallow embedding, in Lean, of the account selection,
rate-limit ledger, credential handling and the dispatcher control flow of the
repository, and proves the specified properties about them.

Modelling conventions:
* JavaScript numbers that hold millisecond timestamps are modelled as `Int`.
  A JS comparison `x > now` where `x` may be `null` coerces `null` to `0`,
  which we model with `Option.getD 0` (`jsNum`).
* JS truthiness of a nullable number (`if (x)`) is `numTruthy`:
  the value is present and non-zero.  Truthiness of a nullable string is
  `strTruthy`: present and non-empty.
* A JS object used as a string-keyed map is modelled as an association list;
  an absent `modelRateLimits` field and an empty map are observationally
  equal in all the code modelled here, so both are the empty list.
* In-place mutation of the account array is modelled by returning the
  updated list.
* The configured constants `DEFAULT_COOLDOWN_MS` and
  `MAX_WAIT_BEFORE_ERROR_MS` are passed as explicit parameters
  (`defaultCooldownMs`, `maxWaitMs`): the repository reads them from a
  config file, and `constants.js` carries an unresolved merge conflict for
  the default cooldown value, so no single literal value is faithful.
* Array indices are modelled as `Nat`; the stored `activeIndex` is
  non-negative in the persisted format, and the code only ever clamps
  indices that are `≥ length`.
-/

/-- JS numeric coercion of a nullable number used in comparisons
(`null` compares as `0`). -/
def jsNum (x : Option Int) : Int := x.getD 0

/-- JS truthiness of a nullable number: present and non-zero. -/
def numTruthy (x : Option Int) : Bool :=
  match x with
  | none => false
  | some v => v ≠ 0

/-- JS truthiness of a nullable string: present and non-empty. -/
def strTruthy (x : Option String) : Bool :=
  match x with
  | none => false
  | some s => s ≠ ""

/-- A per-(account, model) rate-limit record: `{isRateLimited, resetTime}`. -/
structure RateLimit where
  isRateLimited : Bool
  resetTime : Option Int
  deriving Repr, DecidableEq

/-- An account object, with the fields used by the modelled modules. -/
structure Account where
  email : String
  source : String
  refreshToken : Option String
  apiKey : Option String
  enabled : Option Bool
  isInvalid : Bool
  invalidReason : Option String
  invalidAt : Option Int
  modelRateLimits : List (String × RateLimit)
  lastUsed : Option Int
  deriving Repr, DecidableEq

/-- The settings object consulted by `markRateLimited`. -/
structure Settings where
  cooldownDurationMs : Option Int
  deriving Repr, DecidableEq

/-! ## Rate-limit ledger (`rate-limits.js`) -/

/-- `isAllRateLimited(accounts, modelId)`: every account is invalid or has an
active limit for the model; vacuously true on the empty list; false when no
model id is given. -/
def isAllRateLimited (accounts : List Account) (modelId : Option String)
    (now : Int) : Bool :=
  if accounts.length = 0 then true
  else if !strTruthy modelId then false
  else accounts.all fun acc =>
    if acc.isInvalid then true
    else
      match acc.modelRateLimits.lookup (modelId.getD "") with
      | some limit => limit.isRateLimited && decide (jsNum limit.resetTime > now)
      | none => false

/-- The filter body of `getAvailableAccounts`. -/
def availablePred (acc : Account) (modelId : Option String) (now : Int) : Bool :=
  if acc.isInvalid then false
  else if acc.enabled = some false then false
  else if strTruthy modelId then
    match acc.modelRateLimits.lookup (modelId.getD "") with
    | some limit => !(limit.isRateLimited && decide (jsNum limit.resetTime > now))
    | none => true
  else true

/-- `getAvailableAccounts(accounts, modelId)`. -/
def getAvailableAccounts (accounts : List Account) (modelId : Option String)
    (now : Int) : List Account :=
  accounts.filter fun acc => availablePred acc modelId now

/-- One step of `clearExpiredLimits`: an active record whose reset time has
passed is reset to `{isRateLimited: false, resetTime: null}`. -/
def clearOneLimit (now : Int) (l : RateLimit) : RateLimit :=
  if l.isRateLimited && decide (jsNum l.resetTime ≤ now) then
    { isRateLimited := false, resetTime := none }
  else l

/-- `clearExpiredLimits(accounts)`; the returned count (used by the caller
only to decide whether to save) is not modelled. -/
def clearExpiredLimits (accounts : List Account) (now : Int) : List Account :=
  accounts.map fun acc =>
    { acc with
      modelRateLimits := acc.modelRateLimits.map fun p => (p.1, clearOneLimit now p.2) }

/-- JS object assignment `m[k] = v` on an association list: replace the first
binding of `k` in place, or append a new binding. -/
def updateAssoc (xs : List (String × RateLimit)) (k : String) (v : RateLimit) :
    List (String × RateLimit) :=
  match xs with
  | [] => [(k, v)]
  | (k1, v1) :: rest =>
    if k1 = k then (k, v) :: rest else (k1, v1) :: updateAssoc rest k v

/-- The JS expression `resetMs || settings.cooldownDurationMs ||
DEFAULT_COOLDOWN_MS` (`||` tests numeric truthiness, so `0` falls through). -/
def markCooldownMs (resetMs : Option Int) (settings : Settings)
    (defaultCooldownMs : Int) : Int :=
  match resetMs with
  | some v =>
    if v ≠ 0 then v
    else
      match settings.cooldownDurationMs with
      | some c => if c ≠ 0 then c else defaultCooldownMs
      | none => defaultCooldownMs
  | none =>
    match settings.cooldownDurationMs with
    | some c => if c ≠ 0 then c else defaultCooldownMs
    | none => defaultCooldownMs

/-- `markRateLimited(accounts, email, resetMs, settings, modelId)`:
`accounts.find` locates the first account with the given email and its record
for `modelId` is set to rate-limited; returns the updated list together with
the found flag. -/
def markRateLimited (accounts : List Account) (email : String)
    (resetMs : Option Int) (settings : Settings) (modelId : String)
    (defaultCooldownMs now : Int) : List Account × Bool :=
  match accounts with
  | [] => ([], false)
  | a :: rest =>
    if a.email = email then
      ({ a with
          modelRateLimits := updateAssoc a.modelRateLimits modelId
            { isRateLimited := true
              resetTime := some (now + markCooldownMs resetMs settings defaultCooldownMs) } }
        :: rest, true)
    else
      let r := markRateLimited rest email resetMs settings modelId defaultCooldownMs now
      (a :: r.1, r.2)

/-- One iteration of the `getMinWaitTimeMs` loop: a rate-limited record with
a truthy reset time whose remaining wait is positive and below the current
minimum (`none` plays `Infinity`) replaces it. -/
def minWaitStep (minWait : Option Int) (acc : Account) (modelId : Option String)
    (now : Int) : Option Int :=
  if strTruthy modelId then
    match acc.modelRateLimits.lookup (modelId.getD "") with
    | some limit =>
      if limit.isRateLimited && numTruthy limit.resetTime then
        let wait := jsNum limit.resetTime - now
        if decide (wait > 0) &&
            (match minWait with
             | none => true
             | some m => decide (wait < m)) then
          some wait
        else minWait
      else minWait
    | none => minWait
  else minWait

/-- The accumulator loop of `getMinWaitTimeMs` over the account list. -/
def minWaitLoop (accounts : List Account) (modelId : Option String) (now : Int)
    (minWait : Option Int) : Option Int :=
  match accounts with
  | [] => minWait
  | acc :: rest => minWaitLoop rest modelId now (minWaitStep minWait acc modelId now)

/-- The loop of `getMinWaitTimeMs`, started from `minWait = Infinity`. -/
def minWaitFold (accounts : List Account) (modelId : Option String) (now : Int) :
    Option Int :=
  minWaitLoop accounts modelId now none

/-- `getMinWaitTimeMs(accounts, modelId)`. -/
def getMinWaitTimeMs (accounts : List Account) (modelId : Option String)
    (defaultCooldownMs now : Int) : Int :=
  if !isAllRateLimited accounts modelId now then 0
  else
    match minWaitFold accounts modelId now with
    | none => defaultCooldownMs
    | some w => w

/-! ## Account selection (`selection.js`) -/

/-- `isAccountUsable(account, modelId)`; the account argument may be
`undefined` (an out-of-range array read). -/
def isAccountUsable (account : Option Account) (modelId : Option String)
    (now : Int) : Bool :=
  match account with
  | none => false
  | some acc =>
    if acc.isInvalid then false
    else if acc.enabled = some false then false
    else if strTruthy modelId then
      match acc.modelRateLimits.lookup (modelId.getD "") with
      | some limit => !(limit.isRateLimited && decide (jsNum limit.resetTime > now))
      | none => true
    else true

/-- `account.lastUsed = Date.now()`. -/
def touchLastUsed (acc : Account) (now : Int) : Account :=
  { acc with lastUsed := some now }

/-- The index sequence scanned by `pickNext`:
`(index + 1) mod N, (index + 2) mod N, …, (index + N) mod N`. -/
def scanOrder (n index : Nat) : List Nat :=
  (List.range n).map fun i => (index + i + 1) % n

/-- The scan of `pickNext`: the first index in `scanOrder` holding a usable
account. -/
def scanIdx (accounts : List Account) (index : Nat) (modelId : Option String)
    (now : Int) : Option Nat :=
  (scanOrder accounts.length index).find? fun idx =>
    isAccountUsable accounts[idx]? modelId now

/-- Result of `pickNext` / `getCurrentStickyAccount`: the (possibly updated)
account list, the selected account, and the new index. -/
structure PickResult where
  accounts : List Account
  account : Option Account
  newIndex : Nat
  deriving Repr, DecidableEq

/-- `pickNext(accounts, currentIndex, onSave, modelId)`. -/
def pickNext (accounts : List Account) (currentIndex : Nat)
    (modelId : Option String) (now : Int) : PickResult :=
  let accs := clearExpiredLimits accounts now
  if (getAvailableAccounts accs modelId now).length = 0 then
    { accounts := accs, account := none, newIndex := currentIndex }
  else
    let index := if currentIndex ≥ accs.length then 0 else currentIndex
    match scanIdx accs index modelId now with
    | some idx =>
      match accs[idx]? with
      | some a =>
        let a1 := touchLastUsed a now
        { accounts := accs.set idx a1, account := some a1, newIndex := idx }
      | none => { accounts := accs, account := none, newIndex := currentIndex }
    | none => { accounts := accs, account := none, newIndex := currentIndex }

/-- `getCurrentStickyAccount(accounts, currentIndex, onSave, modelId)`. -/
def getCurrentStickyAccount (accounts : List Account) (currentIndex : Nat)
    (modelId : Option String) (now : Int) : PickResult :=
  let accs := clearExpiredLimits accounts now
  if accs.length = 0 then
    { accounts := accs, account := none, newIndex := currentIndex }
  else
    let index := if currentIndex ≥ accs.length then 0 else currentIndex
    match accs[index]? with
    | some a =>
      if isAccountUsable (some a) modelId now then
        let a1 := touchLastUsed a now
        { accounts := accs.set index a1, account := some a1, newIndex := index }
      else { accounts := accs, account := none, newIndex := index }
    | none => { accounts := accs, account := none, newIndex := index }

/-- Result of `shouldWaitForCurrentAccount`. -/
structure WaitInfo where
  shouldWait : Bool
  waitMs : Int
  account : Option Account
  deriving Repr, DecidableEq

/-- The `waitMs` local of `shouldWaitForCurrentAccount`: the remaining wait
of the current account's record for the model (0 when absent or not
rate-limited with a truthy reset time). -/
def stickyWaitMs (account : Account) (modelId : Option String) (now : Int) : Int :=
  if strTruthy modelId then
    match account.modelRateLimits.lookup (modelId.getD "") with
    | some limit =>
      if limit.isRateLimited && numTruthy limit.resetTime then
        jsNum limit.resetTime - now
      else 0
    | none => 0
  else 0

/-- `shouldWaitForCurrentAccount(accounts, currentIndex, modelId)`;
`maxWaitMs` is the configured `MAX_WAIT_BEFORE_ERROR_MS`. -/
def shouldWaitForCurrentAccount (accounts : List Account) (currentIndex : Nat)
    (modelId : Option String) (maxWaitMs now : Int) : WaitInfo :=
  if accounts.length = 0 then { shouldWait := false, waitMs := 0, account := none }
  else
    let index := if currentIndex ≥ accounts.length then 0 else currentIndex
    match accounts[index]? with
    | none => { shouldWait := false, waitMs := 0, account := none }
    | some account =>
      if account.isInvalid then { shouldWait := false, waitMs := 0, account := none }
      else
        let waitMs : Int := stickyWaitMs account modelId now
        if waitMs > 0 ∧ waitMs ≤ maxWaitMs then
          { shouldWait := true, waitMs := waitMs, account := some account }
        else { shouldWait := false, waitMs := 0, account := some account }

/-- Result of `pickStickyAccount`. -/
structure StickyResult where
  accounts : List Account
  account : Option Account
  waitMs : Int
  newIndex : Nat
  deriving Repr, DecidableEq

/-- The tail of `pickStickyAccount` after the failover check: consult
`shouldWaitForCurrentAccount`, else fall back to `pickNext`. -/
def stickyTail (accs : List Account) (currentIndex : Nat)
    (modelId : Option String) (maxWaitMs now : Int) : StickyResult :=
  let waitInfo := shouldWaitForCurrentAccount accs currentIndex modelId maxWaitMs now
  if waitInfo.shouldWait then
    { accounts := accs, account := none, waitMs := waitInfo.waitMs,
      newIndex := currentIndex }
  else
    let r := pickNext accs currentIndex modelId now
    { accounts := r.accounts, account := r.account, waitMs := 0,
      newIndex := r.newIndex }

/-- `pickStickyAccount(accounts, currentIndex, onSave, modelId)`. -/
def pickStickyAccount (accounts : List Account) (currentIndex : Nat)
    (modelId : Option String) (maxWaitMs now : Int) : StickyResult :=
  let r1 := getCurrentStickyAccount accounts currentIndex modelId now
  match r1.account with
  | some sticky =>
    { accounts := r1.accounts, account := some sticky, waitMs := 0,
      newIndex := r1.newIndex }
  | none =>
    if (getAvailableAccounts r1.accounts modelId now).length > 0 then
      let r2 := pickNext r1.accounts currentIndex modelId now
      match r2.account with
      | some next =>
        { accounts := r2.accounts, account := some next, waitMs := 0,
          newIndex := r2.newIndex }
      | none => stickyTail r2.accounts currentIndex modelId maxWaitMs now
    else stickyTail r1.accounts currentIndex modelId maxWaitMs now

/-! ## Shared helpers (`utils/helpers.js`) -/

/-- `haystack.includes(needle)` on character lists. -/
def containsSub : List Char → List Char → Bool
  | [], pat => pat.isEmpty
  | c :: t, pat => pat.isPrefixOf (c :: t) || containsSub t pat

/-- `String.prototype.includes`. -/
def strIncludes (s pat : String) : Bool := containsSub s.data pat.data

/-- `String.prototype.toLowerCase`, as a character list. -/
def lowerData (s : String) : List Char := s.data.map Char.toLower

/-- `isNetworkError(error)`: the lower-cased message contains one of the
transient-network substrings. -/
def isNetworkError (msg : String) : Bool :=
  let m := lowerData msg
  containsSub m "fetch failed".data ||
  containsSub m "network error".data ||
  containsSub m "econnreset".data ||
  containsSub m "etimedout".data ||
  containsSub m "socket hang up".data ||
  containsSub m "timeout".data

/-! ## Credentials (`credentials.js`) -/

/-- A token-cache entry `{token, extractedAt}`. -/
structure CacheEntry where
  token : String
  extractedAt : Int
  deriving Repr, DecidableEq

/-- Outcome of `getTokenForAccount`: a token, or one of the two tagged
errors thrown by the oauth branch. -/
inductive TokenOutcome where
  | token (t : String)
  | authNetworkError (msg : String)
  | authInvalid (msg : String)
  deriving Repr, DecidableEq

/-- `markInvalid` applied to a single account object (the `onInvalid`
callback routes to `markInvalid` in `rate-limits.js` keyed by this
account's email). -/
def markInvalidAccount (acc : Account) (reason : String) (now : Int) : Account :=
  { acc with isInvalid := true, invalidReason := some reason, invalidAt := some now }

/-- The body of `getTokenForAccount` after the cache check.  The result of
the refresh-token exchange (an external HTTP call) is passed in as
`refreshResult`; `dbToken` is the token the legacy database branch would
read.  Returns the updated account, the outcome, and the new cache entry
for this account (unchanged on a thrown error). -/
def getTokenFresh (account : Account) (cached : Option CacheEntry)
    (refreshResult : Except String String) (dbToken : String) (now : Int) :
    Account × TokenOutcome × Option CacheEntry :=
  if account.source = "oauth" ∧ strTruthy account.refreshToken then
    match refreshResult with
    | .ok tok =>
      let account :=
        if account.isInvalid then
          { account with isInvalid := false, invalidReason := none }
        else account
      (account, .token tok, some { token := tok, extractedAt := now })
    | .error msg =>
      if isNetworkError msg then (account, .authNetworkError msg, cached)
      else (markInvalidAccount account msg now, .authInvalid msg, cached)
  else if account.source = "manual" ∧ strTruthy account.apiKey then
    let tok := account.apiKey.getD ""
    (account, .token tok, some { token := tok, extractedAt := now })
  else (account, .token dbToken, some { token := dbToken, extractedAt := now })

/-- `getTokenForAccount(account, tokenCache, onInvalid, onSave)`:
serve from cache while fresh, otherwise obtain a fresh token per source.
`tokenTtl` is the configured `TOKEN_REFRESH_INTERVAL_MS`. -/
def getTokenForAccount (account : Account) (cached : Option CacheEntry)
    (refreshResult : Except String String) (dbToken : String)
    (tokenTtl now : Int) : Account × TokenOutcome × Option CacheEntry :=
  match cached with
  | some c =>
    if now - c.extractedAt < tokenTtl then (account, .token c.token, some c)
    else getTokenFresh account cached refreshResult dbToken now
  | none => getTokenFresh account cached refreshResult dbToken now

/-! ## Dispatcher inner loop (`message-handler.js` / `streaming-handler.js`) -/

/-- The response of one endpoint, as branched on by the inner loop.
Statuses in `[300, 400)` and transport exceptions are not needed by the
properties proved here and are not modelled. -/
inductive EndpointResponse where
  | ok
  | status401
  | status429 (resetMs : Option Int)
  | statusOther (code : Nat)
  deriving Repr, DecidableEq

/-- The `lastError` accumulator of the inner loop: either a 429 marker
carrying the parsed reset, or an `API error <status>` error. -/
inductive LastError where
  | rate429 (resetMs : Option Int)
  | apiError (code : Nat)
  deriving Repr, DecidableEq

/-- The 429 branch of the inner loop:
`if (!lastError?.is429 || (resetMs && (!lastError.resetMs || resetMs <
lastError.resetMs))) lastError = {is429: true, ..., resetMs}`. -/
def update429 (last : Option LastError) (resetMs : Option Int) :
    Option LastError :=
  match last with
  | some (.rate429 old) =>
    if numTruthy resetMs && (!numTruthy old || decide (jsNum resetMs < jsNum old)) then
      some (.rate429 resetMs)
    else some (.rate429 old)
  | _ => some (.rate429 resetMs)

/-- Outcome of the inner endpoint loop. -/
inductive InnerOutcome where
  | success
  | raise (e : LastError)
  | fallthrough
  deriving Repr, DecidableEq

/-- The endpoint loop: a 2xx returns immediately; 401 clears caches and
continues without touching `lastError`; 429 merges into `lastError` keeping
the minimum reset; other `≥ 400` statuses overwrite `lastError`.  After the
loop, a recorded error is raised, and a null `lastError` falls through. -/
def runEndpoints : List EndpointResponse → Option LastError → InnerOutcome
  | [], last =>
    match last with
    | some e => .raise e
    | none => .fallthrough
  | r :: rest, last =>
    match r with
    | .ok => .success
    | .status401 => runEndpoints rest last
    | .status429 resetMs => runEndpoints rest (update429 last resetMs)
    | .statusOther code => runEndpoints rest (some (.apiError code))

/-- The account-level postlude of one account attempt: when the inner loop
raises the all-endpoints-429 error, the dispatcher marks the account
rate-limited with the accumulated reset before re-throwing; no other
outcome touches the ledger. -/
def afterEndpoints (accounts : List Account) (email : String)
    (settings : Settings) (modelId : String) (defaultCooldownMs now : Int)
    (outcome : InnerOutcome) : List Account :=
  match outcome with
  | .raise (.rate429 resetMs) =>
    (markRateLimited accounts email resetMs settings modelId defaultCooldownMs now).1
  | _ => accounts

/-- One account attempt of the dispatcher, restricted to the endpoint loop
and its ledger effect: run the endpoints with `lastError = null`, then apply
the postlude. -/
def accountAttempt (accounts : List Account) (email : String)
    (settings : Settings) (modelId : String) (defaultCooldownMs now : Int)
    (responses : List EndpointResponse) : List Account × InnerOutcome :=
  let o := runEndpoints responses none
  (afterEndpoints accounts email settings modelId defaultCooldownMs now o, o)

/-! ## Dispatcher fallback recursion (`sendMessage` step 3) -/

/-- Result of the no-account branch of a dispatch. -/
inductive DispatchResult where
  | success (model : String)
  | noAccountsError
  deriving Repr, DecidableEq

/-- The fallback-recursion skeleton of `sendMessage` /
`sendMessageStream`: `hasAccount model` abstracts "step 3 of the outer loop
produced an account for this model"; when it fails and fallback is enabled
and `getFB` maps the model, the dispatcher recurses once with the fallback
disabled, else it throws `No accounts available`.
(`fallback-config.js` is not part of the sources; `getFB` abstracts its
`getFallbackModel` as an arbitrary configuration.) -/
def sendMessageCore (getFB : String → Option String)
    (hasAccount : String → Bool) : Bool → String → DispatchResult
  | fallbackEnabled, model =>
    if hasAccount model then .success model
    else
      match fallbackEnabled, getFB model with
      | true, some m1 => sendMessageCore getFB hasAccount false m1
      | _, _ => .noAccountsError
termination_by fb _ => (if fb then 1 else 0)

/-! ## Statement-side definitions -/

/-- A rate-limit record is active for `(account, model)`:
`isRateLimited ∧ resetTime > now`. -/
def hasActiveLimit (acc : Account) (modelId : String) (now : Int) : Bool :=
  match acc.modelRateLimits.lookup modelId with
  | some l => l.isRateLimited && decide (jsNum l.resetTime > now)
  | none => false

/-- The positive remaining wait an account contributes for a model, if any:
its record must be rate-limited with a truthy reset time and a positive
`resetTime - now`. -/
def waitCandidate (acc : Account) (modelId : String) (now : Int) : Option Int :=
  match acc.modelRateLimits.lookup modelId with
  | some l =>
    if l.isRateLimited && numTruthy l.resetTime &&
        decide (jsNum l.resetTime - now > 0) then
      some (jsNum l.resetTime - now)
    else none
  | none => none

/-- The positive remaining waits of the rate-limited records for a model,
in account order: the candidates over which `getMinWaitTimeMs` minimises. -/
def positiveWaits (accounts : List Account) (modelId : String) (now : Int) :
    List Int :=
  accounts.filterMap fun acc => waitCandidate acc modelId now

/-- Minimum of a list of integers starting from a given value. -/
def minFrom (m : Int) (xs : List Int) : Int := xs.foldl min m

/-- Minimum of a list of integers, `none` on the empty list. -/
def listMinOpt : List Int → Option Int
  | [] => none
  | x :: xs => some (minFrom x xs)

/-- The account update performed by `markRateLimited` on the account it
finds. -/
def markAccount (a : Account) (resetMs : Option Int) (settings : Settings)
    (modelId : String) (defaultCooldownMs now : Int) : Account :=
  { a with
    modelRateLimits := updateAssoc a.modelRateLimits modelId
      { isRateLimited := true
        resetTime := some (now + markCooldownMs resetMs settings defaultCooldownMs) } }

/-! ## Sample data for witnesses -/

/-- A plain oauth account with no rate-limit state. -/
def acctBase : Account :=
  { email := "a@x", source := "oauth", refreshToken := some "rt",
    apiKey := none, enabled := none, isInvalid := false,
    invalidReason := none, invalidAt := none, modelRateLimits := [],
    lastUsed := none }

/-- A second account, rate-limited for model `"m"` until time `5000`. -/
def acctLimited : Account :=
  { email := "b@x", source := "oauth", refreshToken := some "rt2",
    apiKey := none, enabled := none, isInvalid := false,
    invalidReason := none, invalidAt := none,
    modelRateLimits := [("m", { isRateLimited := true, resetTime := some 5000 })],
    lastUsed := none }

/-- A disabled but otherwise healthy account. -/
def acctDisabled : Account := { acctBase with enabled := some false }

/-- An invalid account. -/
def acctInvalid : Account := { acctBase with isInvalid := true }

/-- A fallback configuration mapping `"m1"` to `"m2"`. -/
def fbDemo : String → Option String := fun s => if s = "m1" then some "m2" else none

/-- An account oracle under which no model can obtain an account. -/
def noAccountsDemo : String → Bool := fun _ => false

/-! ## Shared lemmas -/

theorem lookup_updateAssoc_self (xs : List (String × RateLimit)) (k : String)
    (v : RateLimit) : (updateAssoc xs k v).lookup k = some v := by
  induction xs with
  | nil => simp [updateAssoc, List.lookup]
  | cons p rest ih =>
    obtain ⟨k1, v1⟩ := p
    by_cases h : k1 = k
    · subst h
      simp [updateAssoc, List.lookup]
    · have hbeq : (k == k1) = false := by
        simp [Ne.symm h]
      simp [updateAssoc, h, List.lookup, hbeq, ih]

theorem lookup_updateAssoc_ne (xs : List (String × RateLimit)) (k k1 : String)
    (v : RateLimit) (h : k1 ≠ k) :
    (updateAssoc xs k v).lookup k1 = xs.lookup k1 := by
  have hbeq : (k1 == k) = false := by simp [h]
  induction xs with
  | nil => simp [updateAssoc, List.lookup, hbeq]
  | cons p rest ih =>
    obtain ⟨k2, v2⟩ := p
    by_cases h2 : k2 = k
    · subst h2
      simp [updateAssoc, List.lookup, hbeq]
    · simp only [updateAssoc, if_neg h2, List.lookup]
      cases hk : k1 == k2 <;> simp [ih]

theorem markRateLimited_append (pre post : List Account) (a : Account)
    (email : String) (resetMs : Option Int) (settings : Settings)
    (modelId : String) (dflt now : Int)
    (hpre : ∀ b ∈ pre, b.email ≠ email) (ha : a.email = email) :
    markRateLimited (pre ++ a :: post) email resetMs settings modelId dflt now =
      (pre ++ markAccount a resetMs settings modelId dflt now :: post, true) := by
  induction pre with
  | nil => simp [markRateLimited, ha, markAccount]
  | cons b rest ih =>
    have hb : b.email ≠ email := hpre b (by simp)
    have ih2 := ih (fun x hx => hpre x (by simp [hx]))
    simp only [List.cons_append, markRateLimited, if_neg hb, List.append_eq]
    rw [ih2]

theorem minFrom_le_self (m : Int) (xs : List Int) : minFrom m xs ≤ m := by
  induction xs generalizing m with
  | nil => simp [minFrom]
  | cons x rest ih =>
    have h := ih (min m x)
    calc minFrom m (x :: rest) = minFrom (min m x) rest := rfl
      _ ≤ min m x := h
      _ ≤ m := min_le_left m x

theorem minFrom_le_mem (m x : Int) (xs : List Int) (hx : x ∈ xs) :
    minFrom m xs ≤ x := by
  induction xs generalizing m with
  | nil => simp at hx
  | cons y rest ih =>
    rcases List.mem_cons.1 hx with h | h
    · subst h
      calc minFrom m (x :: rest) = minFrom (min m x) rest := rfl
        _ ≤ min m x := minFrom_le_self _ _
        _ ≤ x := min_le_right m x
    · exact ih (min m y) h

theorem minFrom_mem (m : Int) (xs : List Int) :
    minFrom m xs = m ∨ minFrom m xs ∈ xs := by
  induction xs generalizing m with
  | nil => left; rfl
  | cons x rest ih =>
    have h : minFrom m (x :: rest) = minFrom (min m x) rest := rfl
    rcases ih (min m x) with h2 | h2
    · rcases min_choice m x with h3 | h3
      · left; rw [h, h2, h3]
      · right; rw [h, h2, h3]; exact List.mem_cons_self x rest
    · right
      rw [h]
      exact List.mem_cons_of_mem x h2

theorem minWaitStep_eq (acc0 : Option Int) (acc : Account) (m : String)
    (now : Int) (hm : m ≠ "") :
    minWaitStep acc0 acc (some m) now =
      match waitCandidate acc m now, acc0 with
      | none, _ => acc0
      | some w, none => some w
      | some w, some m0 => some (min m0 w) := by
  have hmt : strTruthy (some m) = true := by simp [strTruthy, hm]
  unfold minWaitStep waitCandidate
  rw [hmt]
  simp only [if_true, Option.getD_some]
  cases hl : acc.modelRateLimits.lookup m with
  | none => cases acc0 <;> rfl
  | some l =>
    dsimp only
    cases hrl : l.isRateLimited && numTruthy l.resetTime with
    | false =>
      simp only [hrl, Bool.false_and, Bool.false_eq_true, if_false]
    | true =>
      simp only [hrl, Bool.true_and, if_true]
      by_cases hw : jsNum l.resetTime - now > 0
      · cases acc0 with
        | none => simp [hw]
        | some m0 =>
          by_cases hlt : jsNum l.resetTime - now < m0
          · simp [hw, hlt]
            omega
          · simp [hw, hlt]
            omega
      · cases acc0 <;> simp [hw]

theorem minWaitLoop_eq (accounts : List Account) (m : String) (now : Int)
    (acc0 : Option Int) (hm : m ≠ "") :
    minWaitLoop accounts (some m) now acc0 =
      match acc0 with
      | none => listMinOpt (positiveWaits accounts m now)
      | some m0 => some (minFrom m0 (positiveWaits accounts m now)) := by
  induction accounts generalizing acc0 with
  | nil => cases acc0 <;> rfl
  | cons a rest ih =>
    have hstep := minWaitStep_eq acc0 a m now hm
    have hpw : positiveWaits (a :: rest) m now =
        match waitCandidate a m now with
        | some w => w :: positiveWaits rest m now
        | none => positiveWaits rest m now := by
      unfold positiveWaits
      rw [List.filterMap_cons]
      cases waitCandidate a m now <;> rfl
    show minWaitLoop rest (some m) now (minWaitStep acc0 a (some m) now) = _
    rw [hstep, hpw]
    cases hc : waitCandidate a m now with
    | none =>
      rw [ih acc0]
    | some w =>
      cases acc0 with
      | none =>
        rw [ih (some w)]
        rfl
      | some m0 =>
        rw [ih (some (min m0 w))]
        rfl

theorem minWaitFold_eq (accounts : List Account) (m : String) (now : Int)
    (hm : m ≠ "") :
    minWaitFold accounts (some m) now = listMinOpt (positiveWaits accounts m now) := by
  unfold minWaitFold
  rw [minWaitLoop_eq accounts m now none hm]

theorem runEndpoints_all429 (rs : List Int) (m0 : Int)
    (h : ∀ r ∈ rs, 0 < r) (hm : 0 < m0) :
    runEndpoints (rs.map fun r => EndpointResponse.status429 (some r))
      (some (.rate429 (some m0))) = .raise (.rate429 (some (minFrom m0 rs))) := by
  induction rs generalizing m0 with
  | nil => rfl
  | cons r rest ih =>
    have hr : 0 < r := h r (by simp)
    have hrest : ∀ x ∈ rest, 0 < x := fun x hx => h x (by simp [hx])
    show runEndpoints (rest.map _) (update429 (some (.rate429 (some m0))) (some r)) = _
    have h1 : numTruthy (some r) = true := by
      simp only [numTruthy, decide_eq_true_eq]
      omega
    have h2 : numTruthy (some m0) = true := by
      simp only [numTruthy, decide_eq_true_eq]
      omega
    have hupd : update429 (some (.rate429 (some m0))) (some r) =
        some (.rate429 (some (min m0 r))) := by
      unfold update429
      simp only [h1, h2, Bool.not_true, Bool.false_or, Bool.true_and, jsNum,
        Option.getD_some]
      by_cases hlt : r < m0
      · rw [if_pos (by simpa using hlt), min_eq_right (le_of_lt hlt)]
      · rw [if_neg (by simpa using hlt), min_eq_left (by omega)]
    rw [hupd, ih (min m0 r) hrest (lt_min hm hr)]
    rfl

theorem runEndpoints_ok (resps1 resps2 : List EndpointResponse)
    (last : Option LastError) (h : ∀ x ∈ resps1, x ≠ .ok) :
    runEndpoints (resps1 ++ .ok :: resps2) last = .success := by
  induction resps1 generalizing last with
  | nil => rfl
  | cons x rest ih =>
    have hx : x ≠ .ok := h x (by simp)
    have hrest : ∀ y ∈ rest, y ≠ EndpointResponse.ok :=
      fun y hy => h y (by simp [hy])
    cases x with
    | ok => exact absurd rfl hx
    | status401 => exact ih _ hrest
    | status429 rm => exact ih _ hrest
    | statusOther c => exact ih _ hrest

theorem length_clearExpiredLimits (accounts : List Account) (now : Int) :
    (clearExpiredLimits accounts now).length = accounts.length := by
  simp [clearExpiredLimits]

theorem clearOneLimit_idem (now : Int) (l : RateLimit) :
    clearOneLimit now (clearOneLimit now l) = clearOneLimit now l := by
  unfold clearOneLimit
  by_cases h : (l.isRateLimited && decide (jsNum l.resetTime ≤ now)) = true
  · rw [if_pos h]
    simp
  · rw [if_neg h, if_neg h]

theorem clearExpiredLimits_idem (accounts : List Account) (now : Int) :
    clearExpiredLimits (clearExpiredLimits accounts now) now =
      clearExpiredLimits accounts now := by
  unfold clearExpiredLimits
  rw [List.map_map]
  apply List.map_congr_left
  intro a ha
  simp only [Function.comp_apply, List.map_map]
  congr 1
  apply List.map_congr_left
  intro p hp
  simp [clearOneLimit_idem]

theorem isAccountUsable_some (a : Account) (modelId : Option String) (now : Int) :
    isAccountUsable (some a) modelId now = availablePred a modelId now := rfl

theorem scanOrder_lt (n index j : Nat) (hn : 0 < n) (hj : j ∈ scanOrder n index) :
    j < n := by
  unfold scanOrder at hj
  rw [List.mem_map] at hj
  obtain ⟨i, -, rfl⟩ := hj
  exact Nat.mod_lt _ hn

theorem mem_scanOrder (n index j : Nat) (hn : 0 < n) (hj : j < n) :
    j ∈ scanOrder n index := by
  unfold scanOrder
  rw [List.mem_map]
  have hkn : (index + 1) % n < n := Nat.mod_lt _ hn
  by_cases hjk : (index + 1) % n ≤ j
  · refine ⟨j - (index + 1) % n, List.mem_range.2 (by omega), ?_⟩
    have h1 : index + (j - (index + 1) % n) + 1 =
        (index + 1) + (j - (index + 1) % n) := by omega
    rw [h1, Nat.add_mod, Nat.mod_eq_of_lt (show j - (index + 1) % n < n by omega)]
    have h2 : (index + 1) % n + (j - (index + 1) % n) = j := by omega
    rw [h2, Nat.mod_eq_of_lt hj]
  · refine ⟨j + n - (index + 1) % n, List.mem_range.2 (by omega), ?_⟩
    have h1 : index + (j + n - (index + 1) % n) + 1 =
        (index + 1) + (j + n - (index + 1) % n) := by omega
    rw [h1, Nat.add_mod, Nat.mod_eq_of_lt (show j + n - (index + 1) % n < n by omega)]
    have h2 : (index + 1) % n + (j + n - (index + 1) % n) = j + n := by omega
    rw [h2, Nat.add_mod_right, Nat.mod_eq_of_lt hj]

theorem available_eq_nil_iff (accs : List Account) (modelId : Option String)
    (now : Int) :
    getAvailableAccounts accs modelId now = [] ↔
      ∀ a ∈ accs, availablePred a modelId now = false := by
  unfold getAvailableAccounts
  rw [List.filter_eq_nil_iff]
  constructor
  · intro h a ha
    have := h a ha
    simpa using this
  · intro h a ha
    simp [h a ha]

theorem scanIdx_none_iff (accs : List Account) (index : Nat)
    (modelId : Option String) (now : Int) :
    scanIdx accs index modelId now = none ↔
      getAvailableAccounts accs modelId now = [] := by
  unfold scanIdx
  rw [List.find?_eq_none, available_eq_nil_iff]
  constructor
  · intro h a ha
    obtain ⟨j, hj⟩ := List.mem_iff_getElem?.1 ha
    have hn : 0 < accs.length := by
      rcases Nat.eq_zero_or_pos accs.length with h0 | h0
      · rw [List.length_eq_zero] at h0
        subst h0
        simp at ha
      · exact h0
    have hjn : j < accs.length := by
      by_contra hge
      rw [List.getElem?_eq_none (by omega)] at hj
      exact Option.noConfusion hj
    have := h j (mem_scanOrder accs.length index j hn hjn)
    rw [hj] at this
    rw [isAccountUsable_some] at this
    simpa using this
  · intro h j hjmem
    have hn : 0 < accs.length := by
      rcases Nat.eq_zero_or_pos accs.length with h0 | h0
      · unfold scanOrder at hjmem
        rw [h0] at hjmem
        simp at hjmem
      · exact h0
    have hjn : j < accs.length := scanOrder_lt accs.length index j hn hjmem
    obtain ⟨a, hja⟩ : ∃ a, accs[j]? = some a :=
      ⟨accs.get ⟨j, hjn⟩, by rw [List.getElem?_eq_getElem hjn]; rfl⟩
    have hmem : a ∈ accs := List.getElem?_mem hja
    rw [hja, isAccountUsable_some]
    simp [h a hmem]

theorem pickNext_eq_found (accounts : List Account) (cur : Nat)
    (modelId : Option String) (now : Int) (idx : Nat) (a : Account)
    (hfind : scanIdx (clearExpiredLimits accounts now)
      (if cur ≥ (clearExpiredLimits accounts now).length then 0 else cur)
      modelId now = some idx)
    (ha : (clearExpiredLimits accounts now)[idx]? = some a) :
    pickNext accounts cur modelId now =
      { accounts := (clearExpiredLimits accounts now).set idx (touchLastUsed a now),
        account := some (touchLastUsed a now), newIndex := idx } := by
  have hne : getAvailableAccounts (clearExpiredLimits accounts now) modelId now ≠ [] := by
    intro hnil
    rw [← scanIdx_none_iff (clearExpiredLimits accounts now)
      (if cur ≥ (clearExpiredLimits accounts now).length then 0 else cur) modelId now] at hnil
    rw [hfind] at hnil
    exact Option.noConfusion hnil
  have hlen : ¬((getAvailableAccounts (clearExpiredLimits accounts now) modelId now).length = 0) := by
    intro h0
    exact hne (List.length_eq_zero.1 h0)
  simp only [pickNext]
  rw [if_neg hlen, hfind]
  dsimp only
  rw [ha]

theorem pickNext_eq_none (accounts : List Account) (cur : Nat)
    (modelId : Option String) (now : Int)
    (hfind : scanIdx (clearExpiredLimits accounts now)
      (if cur ≥ (clearExpiredLimits accounts now).length then 0 else cur)
      modelId now = none) :
    pickNext accounts cur modelId now =
      { accounts := clearExpiredLimits accounts now, account := none,
        newIndex := cur } := by
  have hnil : getAvailableAccounts (clearExpiredLimits accounts now) modelId now = [] :=
    (scanIdx_none_iff _ _ _ _).1 hfind
  simp only [pickNext]
  rw [if_pos (by rw [hnil]; rfl)]

theorem pickNext_cleared_found (accs : List Account) (cur idx : Nat)
    (modelId : Option String) (now : Int) (a : Account)
    (hidem : clearExpiredLimits accs now = accs)
    (hfind : scanIdx accs (if cur ≥ accs.length then 0 else cur) modelId now = some idx)
    (ha : accs[idx]? = some a) :
    pickNext accs cur modelId now =
      { accounts := accs.set idx (touchLastUsed a now),
        account := some (touchLastUsed a now), newIndex := idx } := by
  have h := pickNext_eq_found accs cur modelId now idx a
    (by rw [hidem]; exact hfind) (by rw [hidem]; exact ha)
  rw [hidem] at h
  exact h

theorem pickNext_cleared_none (accs : List Account) (cur : Nat)
    (modelId : Option String) (now : Int)
    (hidem : clearExpiredLimits accs now = accs)
    (hfind : scanIdx accs (if cur ≥ accs.length then 0 else cur) modelId now = none) :
    pickNext accs cur modelId now =
      { accounts := accs, account := none, newIndex := cur } := by
  have h := pickNext_eq_none accs cur modelId now (by rw [hidem]; exact hfind)
  rw [hidem] at h
  exact h

theorem getCurrentSticky_hit (accounts : List Account) (cur : Nat)
    (modelId : Option String) (now : Int) (sticky : Account)
    (hne : accounts ≠ [])
    (hs : (clearExpiredLimits accounts now)[if cur ≥ accounts.length then 0 else cur]? =
      some sticky)
    (hu : isAccountUsable (some sticky) modelId now = true) :
    getCurrentStickyAccount accounts cur modelId now =
      { accounts := (clearExpiredLimits accounts now).set
          (if cur ≥ accounts.length then 0 else cur) (touchLastUsed sticky now),
        account := some (touchLastUsed sticky now),
        newIndex := if cur ≥ accounts.length then 0 else cur } := by
  have hlen := length_clearExpiredLimits accounts now
  have h0 : ¬((clearExpiredLimits accounts now).length = 0) := by
    rw [hlen]
    intro h
    exact hne (List.length_eq_zero.1 h)
  simp only [getCurrentStickyAccount]
  rw [if_neg h0, hlen, hs]
  simp [hu]

theorem getCurrentSticky_miss (accounts : List Account) (cur : Nat)
    (modelId : Option String) (now : Int) (sticky : Account)
    (hne : accounts ≠ [])
    (hs : (clearExpiredLimits accounts now)[if cur ≥ accounts.length then 0 else cur]? =
      some sticky)
    (hu : isAccountUsable (some sticky) modelId now = false) :
    getCurrentStickyAccount accounts cur modelId now =
      { accounts := clearExpiredLimits accounts now, account := none,
        newIndex := if cur ≥ accounts.length then 0 else cur } := by
  have hlen := length_clearExpiredLimits accounts now
  have h0 : ¬((clearExpiredLimits accounts now).length = 0) := by
    rw [hlen]
    intro h
    exact hne (List.length_eq_zero.1 h)
  simp only [getCurrentStickyAccount]
  rw [if_neg h0, hlen, hs]
  simp [hu]

theorem shouldWait_reduce (accs : List Account) (cur : Nat)
    (modelId : Option String) (maxW now : Int) (sticky : Account)
    (hcur : cur < accs.length) (hs : accs[cur]? = some sticky) :
    shouldWaitForCurrentAccount accs cur modelId maxW now =
      (if sticky.isInvalid then
        { shouldWait := false, waitMs := 0, account := none }
       else if stickyWaitMs sticky modelId now > 0 ∧
           stickyWaitMs sticky modelId now ≤ maxW then
        { shouldWait := true, waitMs := stickyWaitMs sticky modelId now,
          account := some sticky }
       else { shouldWait := false, waitMs := 0, account := some sticky }) := by
  have h0 : ¬(accs.length = 0) := by omega
  have hge : ¬(cur ≥ accs.length) := by omega
  simp only [shouldWaitForCurrentAccount]
  rw [if_neg h0, if_neg hge, hs]

theorem stickyWaitMs_limit (sticky : Account) (m : String) (now : Int)
    (l : RateLimit) (rt : Int) (hm : m ≠ "")
    (hl : sticky.modelRateLimits.lookup m = some l)
    (hrl : l.isRateLimited = true) (hrt : l.resetTime = some rt) (hrt0 : rt ≠ 0) :
    stickyWaitMs sticky (some m) now = rt - now := by
  have hmt : strTruthy (some m) = true := by simp [strTruthy, hm]
  have hnt : numTruthy (some rt) = true := by simp [numTruthy, hrt0]
  simp only [stickyWaitMs, hmt, if_true, Option.getD_some, hl, hrl, hrt, hnt,
    Bool.and_self, jsNum]

theorem stickyWaitMs_pos_inv (sticky : Account) (m : String) (now : Int)
    (hw : 0 < stickyWaitMs sticky (some m) now) :
    ∃ l rt, sticky.modelRateLimits.lookup m = some l ∧ l.isRateLimited = true ∧
      l.resetTime = some rt ∧ stickyWaitMs sticky (some m) now = rt - now := by
  by_cases hmt : strTruthy (some m) = true
  · rw [stickyWaitMs, hmt] at hw
    simp only [if_true, Option.getD_some] at hw
    cases hl : sticky.modelRateLimits.lookup m with
    | none =>
      rw [hl] at hw
      simp at hw
    | some l =>
      rw [hl] at hw
      dsimp only at hw
      cases hb : l.isRateLimited && numTruthy l.resetTime with
      | false =>
        rw [hb] at hw
        simp at hw
      | true =>
        rw [hb] at hw
        simp only [if_true] at hw
        rw [Bool.and_eq_true] at hb
        obtain ⟨hrl, hnt⟩ := hb
        obtain ⟨rt, hrt⟩ : ∃ rt, l.resetTime = some rt := by
          cases hrt : l.resetTime with
          | none =>
            rw [hrt] at hnt
            simp [numTruthy] at hnt
          | some v => exact ⟨v, rfl⟩
        have hnt2 : numTruthy (some rt) = true := by
          rw [← hrt]
          exact hnt
        refine ⟨l, rt, rfl, hrl, hrt, ?_⟩
        rw [stickyWaitMs, hmt]
        simp only [if_true, Option.getD_some, hl, hrl, hrt, hnt2,
          Bool.and_self, jsNum]
  · rw [Bool.not_eq_true] at hmt
    rw [stickyWaitMs, hmt] at hw
    simp at hw

theorem shouldWait_eq_true (accs : List Account) (cur : Nat) (m : String)
    (maxW now : Int) (sticky : Account) (l : RateLimit) (rt : Int)
    (hcur : cur < accs.length) (hs : accs[cur]? = some sticky) (hm : m ≠ "")
    (hinv : sticky.isInvalid = false) (hl : sticky.modelRateLimits.lookup m = some l)
    (hrl : l.isRateLimited = true) (hrt : l.resetTime = some rt) (hrt0 : rt ≠ 0)
    (h1 : 0 < rt - now) (h2 : rt - now ≤ maxW) :
    shouldWaitForCurrentAccount accs cur (some m) maxW now =
      { shouldWait := true, waitMs := rt - now, account := some sticky } := by
  rw [shouldWait_reduce accs cur (some m) maxW now sticky hcur hs, hinv,
    stickyWaitMs_limit sticky m now l rt hm hl hrl hrt hrt0]
  simp only [Bool.false_eq_true, if_false]
  rw [if_pos ⟨h1, h2⟩]

theorem shouldWait_inv (accs : List Account) (cur : Nat) (m : String)
    (maxW now : Int) (sticky : Account)
    (hcur : cur < accs.length) (hs : accs[cur]? = some sticky)
    (hw : (shouldWaitForCurrentAccount accs cur (some m) maxW now).shouldWait = true) :
    sticky.isInvalid = false ∧
    ∃ l rt, sticky.modelRateLimits.lookup m = some l ∧ l.isRateLimited = true ∧
      l.resetTime = some rt ∧ 0 < rt - now ∧ rt - now ≤ maxW ∧
      shouldWaitForCurrentAccount accs cur (some m) maxW now =
        { shouldWait := true, waitMs := rt - now, account := some sticky } := by
  rw [shouldWait_reduce accs cur (some m) maxW now sticky hcur hs] at hw
  by_cases hinv : sticky.isInvalid = true
  · rw [hinv] at hw
    simp at hw
  · rw [Bool.not_eq_true] at hinv
    rw [hinv] at hw
    simp only [Bool.false_eq_true, if_false] at hw
    by_cases hcond : stickyWaitMs sticky (some m) now > 0 ∧
        stickyWaitMs sticky (some m) now ≤ maxW
    · obtain ⟨l, rt, hl, hrl, hrt, hval⟩ := stickyWaitMs_pos_inv sticky m now hcond.1
      refine ⟨hinv, l, rt, hl, hrl, hrt, ?_, ?_, ?_⟩
      · rw [← hval]
        exact hcond.1
      · rw [← hval]
        exact hcond.2
      · rw [shouldWait_reduce accs cur (some m) maxW now sticky hcur hs, hinv]
        simp only [Bool.false_eq_true, if_false]
        rw [if_pos hcond, hval]
    · rw [if_neg hcond] at hw
      simp at hw

theorem stickyTail_wait (accs : List Account) (cur : Nat)
    (modelId : Option String) (maxW now : Int)
    (hw : (shouldWaitForCurrentAccount accs cur modelId maxW now).shouldWait = true) :
    stickyTail accs cur modelId maxW now =
      { accounts := accs, account := none,
        waitMs := (shouldWaitForCurrentAccount accs cur modelId maxW now).waitMs,
        newIndex := cur } := by
  simp only [stickyTail]
  rw [hw]
  simp

theorem stickyTail_nowait (accs : List Account) (cur : Nat)
    (modelId : Option String) (maxW now : Int)
    (hw : (shouldWaitForCurrentAccount accs cur modelId maxW now).shouldWait = false) :
    stickyTail accs cur modelId maxW now =
      { accounts := (pickNext accs cur modelId now).accounts,
        account := (pickNext accs cur modelId now).account, waitMs := 0,
        newIndex := (pickNext accs cur modelId now).newIndex } := by
  simp only [stickyTail]
  rw [hw]
  simp

theorem pickSticky_hit (accounts : List Account) (cur : Nat)
    (modelId : Option String) (maxW now : Int) (sticky : Account)
    (hne : accounts ≠ [])
    (hs : (clearExpiredLimits accounts now)[if cur ≥ accounts.length then 0 else cur]? =
      some sticky)
    (hu : isAccountUsable (some sticky) modelId now = true) :
    pickStickyAccount accounts cur modelId maxW now =
      { accounts := (clearExpiredLimits accounts now).set
          (if cur ≥ accounts.length then 0 else cur) (touchLastUsed sticky now),
        account := some (touchLastUsed sticky now), waitMs := 0,
        newIndex := if cur ≥ accounts.length then 0 else cur } := by
  simp only [pickStickyAccount]
  rw [getCurrentSticky_hit accounts cur modelId now sticky hne hs hu]

theorem pickSticky_miss_avail (accounts : List Account) (cur : Nat)
    (modelId : Option String) (maxW now : Int) (sticky : Account)
    (hne : accounts ≠ [])
    (hs : (clearExpiredLimits accounts now)[if cur ≥ accounts.length then 0 else cur]? =
      some sticky)
    (hu : isAccountUsable (some sticky) modelId now = false)
    (hav : getAvailableAccounts (clearExpiredLimits accounts now) modelId now ≠ []) :
    ∃ j a, j ≠ (if cur ≥ accounts.length then 0 else cur) ∧ j < accounts.length ∧
      (clearExpiredLimits accounts now)[j]? = some a ∧
      isAccountUsable (some a) modelId now = true ∧
      pickStickyAccount accounts cur modelId maxW now =
        { accounts := (clearExpiredLimits accounts now).set j (touchLastUsed a now),
          account := some (touchLastUsed a now), waitMs := 0, newIndex := j } := by
  have hlen := length_clearExpiredLimits accounts now
  have hidem := clearExpiredLimits_idem accounts now
  obtain ⟨idx, hfind⟩ : ∃ idx, scanIdx (clearExpiredLimits accounts now)
      (if cur ≥ (clearExpiredLimits accounts now).length then 0 else cur)
      modelId now = some idx := by
    cases hsi : scanIdx (clearExpiredLimits accounts now)
        (if cur ≥ (clearExpiredLimits accounts now).length then 0 else cur)
        modelId now with
    | none => exact absurd ((scanIdx_none_iff _ _ _ _).1 hsi) hav
    | some idx => exact ⟨idx, rfl⟩
  have hfind2 := hfind
  rw [scanIdx] at hfind2
  have husable := List.find?_some hfind2
  obtain ⟨a, ha⟩ : ∃ a, (clearExpiredLimits accounts now)[idx]? = some a := by
    cases hax : (clearExpiredLimits accounts now)[idx]? with
    | none =>
      rw [hax] at husable
      exact absurd husable (by simp [isAccountUsable])
    | some a => exact ⟨a, rfl⟩
  rw [ha] at husable
  have hmem := List.mem_of_find?_eq_some hfind2
  have hn : 0 < (clearExpiredLimits accounts now).length := by
    by_contra hno
    rw [List.getElem?_eq_none (by omega)] at ha
    exact Option.noConfusion ha
  have hidxlt : idx < accounts.length := by
    have := scanOrder_lt (clearExpiredLimits accounts now).length
      (if cur ≥ (clearExpiredLimits accounts now).length then 0 else cur) idx hn hmem
    omega
  have hjne : idx ≠ (if cur ≥ accounts.length then 0 else cur) := by
    intro heq
    rw [heq, hs] at ha
    have heqa : sticky = a := Option.some.inj ha
    rw [← heqa] at husable
    rw [husable] at hu
    exact Bool.noConfusion hu
  refine ⟨idx, a, hjne, hidxlt, ha, husable, ?_⟩
  simp only [pickStickyAccount]
  rw [getCurrentSticky_miss accounts cur modelId now sticky hne hs hu]
  dsimp only
  rw [if_pos (List.length_pos.2 hav),
    pickNext_cleared_found (clearExpiredLimits accounts now) cur idx modelId now a
      hidem hfind ha]

theorem pickSticky_noavail (accounts : List Account) (cur : Nat)
    (modelId : Option String) (maxW now : Int) (sticky : Account)
    (hne : accounts ≠ [])
    (hs : (clearExpiredLimits accounts now)[if cur ≥ accounts.length then 0 else cur]? =
      some sticky)
    (hu : isAccountUsable (some sticky) modelId now = false)
    (hav : getAvailableAccounts (clearExpiredLimits accounts now) modelId now = []) :
    pickStickyAccount accounts cur modelId maxW now =
      stickyTail (clearExpiredLimits accounts now) cur modelId maxW now := by
  simp only [pickStickyAccount]
  rw [getCurrentSticky_miss accounts cur modelId now sticky hne hs hu]
  dsimp only
  rw [if_neg (by rw [hav]; simp)]

theorem pickNext_newIndex_cases (accounts : List Account) (cur : Nat)
    (modelId : Option String) (now : Int) :
    ((pickNext accounts cur modelId now).account = none ∧
      (pickNext accounts cur modelId now).newIndex = cur) ∨
    ((pickNext accounts cur modelId now).account.isSome = true ∧
      (pickNext accounts cur modelId now).newIndex < accounts.length) := by
  cases hfind : scanIdx (clearExpiredLimits accounts now)
      (if cur ≥ (clearExpiredLimits accounts now).length then 0 else cur)
      modelId now with
  | none =>
    left
    rw [pickNext_eq_none accounts cur modelId now hfind]
    exact ⟨rfl, rfl⟩
  | some idx =>
    right
    have hfind2 := hfind
    rw [scanIdx] at hfind2
    have husable := List.find?_some hfind2
    obtain ⟨a, ha⟩ : ∃ a, (clearExpiredLimits accounts now)[idx]? = some a := by
      cases hax : (clearExpiredLimits accounts now)[idx]? with
      | none =>
        rw [hax] at husable
        exact absurd husable (by simp [isAccountUsable])
      | some a => exact ⟨a, rfl⟩
    have hmem := List.mem_of_find?_eq_some hfind2
    have hn : 0 < (clearExpiredLimits accounts now).length := by
      by_contra hno
      rw [List.getElem?_eq_none (by omega)] at ha
      exact Option.noConfusion ha
    have hidxlt : idx < accounts.length := by
      have := scanOrder_lt (clearExpiredLimits accounts now).length
        (if cur ≥ (clearExpiredLimits accounts now).length then 0 else cur) idx hn hmem
      have hlen := length_clearExpiredLimits accounts now
      omega
    rw [pickNext_eq_found accounts cur modelId now idx a hfind ha]
    exact ⟨rfl, hidxlt⟩

theorem stickyTail_newIndex_cases (accs : List Account) (cur : Nat)
    (modelId : Option String) (maxW now : Int) :
    ((stickyTail accs cur modelId maxW now).account = none ∧
      (stickyTail accs cur modelId maxW now).newIndex = cur) ∨
    ((stickyTail accs cur modelId maxW now).account.isSome = true ∧
      (stickyTail accs cur modelId maxW now).newIndex < accs.length) := by
  by_cases hw : (shouldWaitForCurrentAccount accs cur modelId maxW now).shouldWait = true
  · left
    rw [stickyTail_wait accs cur modelId maxW now hw]
    exact ⟨rfl, rfl⟩
  · rw [stickyTail_nowait accs cur modelId maxW now (by simpa using hw)]
    rcases pickNext_newIndex_cases accs cur modelId now with ⟨h1, h2⟩ | ⟨h1, h2⟩
    · left
      exact ⟨h1, h2⟩
    · right
      exact ⟨h1, h2⟩

/-! ## Claims -/

/-- C9: for every account list and every model argument, every account with
`isInvalid = true` is excluded from the list returned by
`getAvailableAccounts`. -/
theorem getAvailableAccounts_excludes_invalid (accounts : List Account)
    (modelId : Option String) (now : Int) (acc : Account)
    (h : acc ∈ getAvailableAccounts accounts modelId now) :
    acc.isInvalid = false := by
  rcases List.mem_filter.1 h with ⟨-, hp⟩
  by_contra hinv
  rw [Bool.not_eq_false] at hinv
  simp [availablePred, hinv] at hp

/-- Witness for C9 at a concrete input. -/
theorem getAvailableAccounts_excludes_invalid_witness :
    acctBase.isInvalid = false :=
  getAvailableAccounts_excludes_invalid [acctBase] (some "m") 0 acctBase (by decide)

/-- C10: an account that is disabled but neither invalid nor actively
rate-limited keeps `isAllRateLimited` false while being excluded from
`getAvailableAccounts`; with every account in that state the two
availability views disagree (`false` versus the empty list). -/
theorem rate_limit_views_disagree (accounts : List Account) (m : String)
    (now : Int) (a : Account) (ha : a ∈ accounts)
    (hd : a.enabled = some false) (hi : a.isInvalid = false)
    (hl : hasActiveLimit a m now = false) :
    isAllRateLimited accounts (some m) now = false ∧
    a ∉ getAvailableAccounts accounts (some m) now ∧
    ((∀ b ∈ accounts, b.enabled = some false ∧ b.isInvalid = false ∧
        hasActiveLimit b m now = false) →
      getAvailableAccounts accounts (some m) now = []) := by
  have hlen : accounts.length ≠ 0 := by
    intro h0
    rw [List.length_eq_zero] at h0
    subst h0
    simp at ha
  have hpred : availablePred a (some m) now = false := by
    simp [availablePred, hi, hd]
  refine ⟨?_, ?_, ?_⟩
  · unfold isAllRateLimited
    rw [if_neg hlen]
    by_cases hm : strTruthy (some m)
    · rw [hm]
      simp only [Bool.not_true, Bool.false_eq_true, if_false]
      rw [← Bool.not_eq_true, List.all_eq_true]
      intro hall
      have := hall a ha
      rw [hi] at this
      simp only [Bool.false_eq_true, if_false] at this
      unfold hasActiveLimit at hl
      simp only [Option.getD_some] at this
      rw [hl] at this
      exact Bool.false_ne_true this
    · rw [Bool.not_eq_true] at hm
      rw [hm]
      simp
  · intro hmem
    rcases List.mem_filter.1 hmem with ⟨-, hp⟩
    rw [hpred] at hp
    exact Bool.false_ne_true hp
  · intro hall
    unfold getAvailableAccounts
    rw [List.filter_eq_nil_iff]
    intro b hb
    rcases hall b hb with ⟨hbd, hbi, -⟩
    simp [availablePred, hbi, hbd]

/-- C2 counterexample: with `resetMs = 0` (non-null) and no settings
cooldown, the record's reset time is `now + DefaultCooldown`, not
`now + resetMs`, because the source combines the arguments with `||`,
which treats `0` as absent. -/
theorem markRateLimited_zero_reset_counterexample :
    ((markRateLimited [acctBase] "a@x" (some 0) { cooldownDurationMs := none }
        "m" 60000 1000).1.head?.map
      fun a => a.modelRateLimits.lookup "m") =
      some (some { isRateLimited := true, resetTime := some 61000 }) ∧
    (some 61000 : Option Int) ≠ some (1000 + 0) := by
  decide

/-- C2 amended: `markRateLimited` rewrites the first account carrying the
email, setting its record for the model to rate-limited with
`resetTime = now + resetMs` when `resetMs` is non-null and non-zero,
`now + settings cooldown` when `resetMs` is null-or-zero and the settings
cooldown is non-null and non-zero, and `now + DefaultCooldown` otherwise;
every other account and every other model record is unchanged. -/
theorem markRateLimited_spec (pre post : List Account) (a : Account)
    (email : String) (resetMs : Option Int) (settings : Settings)
    (modelId : String) (dflt now : Int)
    (hpre : ∀ b ∈ pre, b.email ≠ email) (ha : a.email = email) :
    (markRateLimited (pre ++ a :: post) email resetMs settings modelId dflt now).2 = true ∧
    (markRateLimited (pre ++ a :: post) email resetMs settings modelId dflt now).1 =
      pre ++ markAccount a resetMs settings modelId dflt now :: post ∧
    (markAccount a resetMs settings modelId dflt now).modelRateLimits.lookup modelId =
      some { isRateLimited := true
             resetTime := some (now + markCooldownMs resetMs settings dflt) } ∧
    (∀ k, k ≠ modelId →
      (markAccount a resetMs settings modelId dflt now).modelRateLimits.lookup k =
        a.modelRateLimits.lookup k) ∧
    (∀ v, resetMs = some v → v ≠ 0 → markCooldownMs resetMs settings dflt = v) ∧
    (∀ c, (resetMs = none ∨ resetMs = some 0) →
      settings.cooldownDurationMs = some c → c ≠ 0 →
      markCooldownMs resetMs settings dflt = c) ∧
    ((resetMs = none ∨ resetMs = some 0) →
      (settings.cooldownDurationMs = none ∨ settings.cooldownDurationMs = some 0) →
      markCooldownMs resetMs settings dflt = dflt) := by
  have hmk := markRateLimited_append pre post a email resetMs settings modelId
    dflt now hpre ha
  refine ⟨by rw [hmk], by rw [hmk], ?_, ?_, ?_, ?_, ?_⟩
  · exact lookup_updateAssoc_self a.modelRateLimits modelId _
  · intro k hk
    exact lookup_updateAssoc_ne a.modelRateLimits modelId k _ hk
  · intro v hv hv0
    subst hv
    simp [markCooldownMs, hv0]
  · intro c hr hc hc0
    rcases hr with h | h <;> subst h <;> simp [markCooldownMs, hc, hc0]
  · intro hr hc
    rcases hr with h | h <;> subst h <;>
      rcases hc with h2 | h2 <;> simp [markCooldownMs, h2]

/-- Witness for the amended C2 at a concrete input. -/
theorem markRateLimited_spec_witness :
    (markRateLimited [acctBase] "a@x" (some 5000) { cooldownDurationMs := none }
      "m" 60000 1000).2 = true ∧
    (markRateLimited [acctBase] "a@x" (some 5000) { cooldownDurationMs := none }
      "m" 60000 1000).1 =
      [markAccount acctBase (some 5000) { cooldownDurationMs := none } "m" 60000 1000] := by
  have h := markRateLimited_spec [] [] acctBase "a@x" (some 5000)
    { cooldownDurationMs := none } "m" 60000 1000 (by simp) (by decide)
  exact ⟨h.1, h.2.1⟩

/-- C4: when step 3 of the outer loop yields no account, the dispatcher with
`fallbackEnabled = true` recurses exactly once, with the configured fallback
model and `fallbackEnabled = false`, and returns that result; without a
configured fallback, or with `fallbackEnabled = false`, it raises
`No accounts available`; in particular a second exhaustion never recurses
to a second fallback model. -/
theorem sendMessage_fallback_one_level (getFB : String → Option String)
    (hasAccount : String → Bool) (model : String)
    (h : hasAccount model = false) :
    (sendMessageCore getFB hasAccount true model =
      match getFB model with
      | some m1 => sendMessageCore getFB hasAccount false m1
      | none => DispatchResult.noAccountsError) ∧
    (∀ m1, getFB model = some m1 → hasAccount m1 = false →
      sendMessageCore getFB hasAccount true model = .noAccountsError) ∧
    (sendMessageCore getFB hasAccount false model = .noAccountsError) := by
  have he : ∀ fb m, sendMessageCore getFB hasAccount fb m =
      if hasAccount m then .success m
      else
        match fb, getFB m with
        | true, some m1 => sendMessageCore getFB hasAccount false m1
        | _, _ => .noAccountsError := by
    intro fb m
    rw [sendMessageCore.eq_def]
  have hnot : ¬(hasAccount model = true) := by simp [h]
  refine ⟨?_, ?_, ?_⟩
  · rw [he true model, if_neg hnot]
    cases getFB model <;> rfl
  · intro m1 hm1 hm1f
    rw [he true model, if_neg hnot, hm1]
    show sendMessageCore getFB hasAccount false m1 = _
    rw [he false m1, if_neg (by simp [hm1f])]
  · rw [he false model, if_neg hnot]

/-- Witness for C4 at a concrete input: one level of fallback, then
`No accounts available` even though a second mapping could exist. -/
theorem sendMessage_fallback_one_level_witness :
    sendMessageCore fbDemo noAccountsDemo true "m1" = .noAccountsError :=
  (sendMessage_fallback_one_level fbDemo noAccountsDemo "m1" (by decide)).2.1
    "m2" (by decide) (by decide)

/-- C7: for an oauth account on a token-cache miss, a refresh failure with a
network-classed message leaves `isInvalid` unchanged and yields the
`AUTH_NETWORK_ERROR` outcome; any other failure marks the account invalid
with the error message and yields `AUTH_INVALID`; success clears any
previously set `isInvalid` flag. -/
theorem getTokenForAccount_oauth_spec (account : Account)
    (cached : Option CacheEntry) (refreshResult : Except String String)
    (dbToken : String) (tokenTtl now : Int)
    (hsrc : account.source = "oauth") (hrt : strTruthy account.refreshToken = true)
    (hmiss : ∀ c, cached = some c → ¬(now - c.extractedAt < tokenTtl)) :
    (∀ msg, refreshResult = .error msg → isNetworkError msg = true →
      (getTokenForAccount account cached refreshResult dbToken tokenTtl now).1.isInvalid =
        account.isInvalid ∧
      (getTokenForAccount account cached refreshResult dbToken tokenTtl now).2.1 =
        .authNetworkError msg) ∧
    (∀ msg, refreshResult = .error msg → isNetworkError msg = false →
      (getTokenForAccount account cached refreshResult dbToken tokenTtl now).1.isInvalid = true ∧
      (getTokenForAccount account cached refreshResult dbToken tokenTtl now).1.invalidReason =
        some msg ∧
      (getTokenForAccount account cached refreshResult dbToken tokenTtl now).2.1 =
        .authInvalid msg) ∧
    (∀ tok, refreshResult = .ok tok →
      (getTokenForAccount account cached refreshResult dbToken tokenTtl now).1.isInvalid = false ∧
      (getTokenForAccount account cached refreshResult dbToken tokenTtl now).2.1 =
        .token tok) := by
  have hfresh : getTokenForAccount account cached refreshResult dbToken tokenTtl now =
      getTokenFresh account cached refreshResult dbToken now := by
    cases cached with
    | none => rfl
    | some c =>
      simp only [getTokenForAccount]
      rw [if_neg (hmiss c rfl)]
  have hoauth : (account.source = "oauth" ∧ strTruthy account.refreshToken) := by
    exact ⟨hsrc, by simp [hrt]⟩
  refine ⟨?_, ?_, ?_⟩
  · intro msg hres hnet
    subst hres
    rw [hfresh]
    unfold getTokenFresh
    rw [if_pos hoauth]
    simp only [hnet, if_pos rfl]
    exact ⟨rfl, rfl⟩
  · intro msg hres hnet
    subst hres
    rw [hfresh]
    unfold getTokenFresh
    rw [if_pos hoauth]
    simp only [hnet]
    simp [markInvalidAccount]
  · intro tok hres
    subst hres
    rw [hfresh]
    unfold getTokenFresh
    rw [if_pos hoauth]
    by_cases hi : account.isInvalid <;> simp [hi]

/-- Witness for C7 at a concrete input: a `fetch failed` refresh error is
network-classed and does not invalidate the account. -/
theorem getTokenForAccount_oauth_spec_witness :
    (getTokenForAccount acctBase none (.error "fetch failed: boom") "db"
      300000 0).1.isInvalid = acctBase.isInvalid ∧
    (getTokenForAccount acctBase none (.error "fetch failed: boom") "db"
      300000 0).2.1 = .authNetworkError "fetch failed: boom" :=
  (getTokenForAccount_oauth_spec acctBase none (.error "fetch failed: boom")
      "db" 300000 0 (by decide) (by decide)
      (fun c hc => by simp at hc)).1
    "fetch failed: boom" rfl (by decide)

/-- C5: `getMinWaitTimeMs` returns 0 when not all accounts are rate-limited
for the model; otherwise it returns the minimum of the positive remaining
waits of the rate-limited records for the model (a member of that set that
bounds every member from below); and it returns `DefaultCooldown` when all
accounts are rate-limited but no record yields a positive remaining wait. -/
theorem getMinWaitTimeMs_spec (accounts : List Account) (m : String)
    (dflt now : Int) (hm : m ≠ "") :
    (isAllRateLimited accounts (some m) now = false →
      getMinWaitTimeMs accounts (some m) dflt now = 0) ∧
    (isAllRateLimited accounts (some m) now = true →
      positiveWaits accounts m now = [] →
      getMinWaitTimeMs accounts (some m) dflt now = dflt) ∧
    (isAllRateLimited accounts (some m) now = true →
      ∀ w0 ∈ positiveWaits accounts m now,
        getMinWaitTimeMs accounts (some m) dflt now ∈ positiveWaits accounts m now ∧
        getMinWaitTimeMs accounts (some m) dflt now ≤ w0) := by
  refine ⟨?_, ?_, ?_⟩
  · intro hall
    unfold getMinWaitTimeMs
    rw [hall]
    simp
  · intro hall hpw
    unfold getMinWaitTimeMs
    rw [hall]
    simp only [Bool.not_true, Bool.false_eq_true, if_false]
    rw [minWaitFold_eq accounts m now hm, hpw]
    rfl
  · intro hall w0 hw0
    unfold getMinWaitTimeMs
    rw [hall]
    simp only [Bool.not_true, Bool.false_eq_true, if_false]
    rw [minWaitFold_eq accounts m now hm]
    cases hpw : positiveWaits accounts m now with
    | nil =>
      rw [hpw] at hw0
      simp at hw0
    | cons x xs =>
      rw [hpw] at hw0
      simp only [listMinOpt]
      refine ⟨?_, ?_⟩
      · rcases minFrom_mem x xs with h | h
        · rw [h]
          exact List.mem_cons_self x xs
        · exact List.mem_cons_of_mem x h
      · rcases List.mem_cons.1 hw0 with h | h
        · rw [h]
          exact minFrom_le_self x xs
        · exact minFrom_le_mem x w0 xs h

/-- C3: within one account attempt, if every endpoint responds 429 with a
positive parsed reset, the dispatcher marks exactly that (account, model)
pair rate-limited with `resetTime = now +` the minimum reset across the
responses (`minFrom r0 rs`, shown to be the least element) and raises the
rate-limit error to the outer loop; if some endpoint responds 2xx, the
attempt succeeds and no account is marked. -/
theorem accountAttempt_429_spec (pre post : List Account) (a : Account)
    (email : String) (settings : Settings) (modelId : String)
    (dflt now : Int) (rs : List Int) (r0 : Int)
    (hpre : ∀ b ∈ pre, b.email ≠ email) (ha : a.email = email)
    (hr0 : 0 < r0) (hrs : ∀ r ∈ rs, 0 < r) :
    (accountAttempt (pre ++ a :: post) email settings modelId dflt now
        ((r0 :: rs).map fun r => .status429 (some r))).2 =
      .raise (.rate429 (some (minFrom r0 rs))) ∧
    (accountAttempt (pre ++ a :: post) email settings modelId dflt now
        ((r0 :: rs).map fun r => .status429 (some r))).1 =
      pre ++ markAccount a (some (minFrom r0 rs)) settings modelId dflt now :: post ∧
    (markAccount a (some (minFrom r0 rs)) settings modelId dflt
        now).modelRateLimits.lookup modelId =
      some { isRateLimited := true, resetTime := some (now + minFrom r0 rs) } ∧
    (∀ k, k ≠ modelId →
      (markAccount a (some (minFrom r0 rs)) settings modelId dflt
          now).modelRateLimits.lookup k = a.modelRateLimits.lookup k) ∧
    minFrom r0 rs ∈ r0 :: rs ∧
    (∀ r ∈ r0 :: rs, minFrom r0 rs ≤ r) ∧
    (∀ resps1 resps2 : List EndpointResponse, (∀ x ∈ resps1, x ≠ .ok) →
      (accountAttempt (pre ++ a :: post) email settings modelId dflt now
          (resps1 ++ .ok :: resps2)).2 = .success ∧
      (accountAttempt (pre ++ a :: post) email settings modelId dflt now
          (resps1 ++ .ok :: resps2)).1 = pre ++ a :: post) := by
  have hpos : 0 < minFrom r0 rs := by
    rcases minFrom_mem r0 rs with h | h
    · rw [h]
      exact hr0
    · exact hrs _ h
  have hrun : runEndpoints ((r0 :: rs).map fun r => .status429 (some r)) none =
      .raise (.rate429 (some (minFrom r0 rs))) := by
    show runEndpoints (rs.map _) (update429 none (some r0)) = _
    exact runEndpoints_all429 rs r0 hrs hr0
  have hmk := markRateLimited_append pre post a email (some (minFrom r0 rs))
    settings modelId dflt now hpre ha
  have hcd : markCooldownMs (some (minFrom r0 rs)) settings dflt = minFrom r0 rs := by
    simp only [markCooldownMs]
    rw [if_pos (by omega)]
  refine ⟨?_, ?_, ?_, ?_, ?_, ?_, ?_⟩
  · show runEndpoints ((r0 :: rs).map fun r => .status429 (some r)) none = _
    exact hrun
  · show afterEndpoints (pre ++ a :: post) email settings modelId dflt now
        (runEndpoints ((r0 :: rs).map fun r => .status429 (some r)) none) = _
    rw [hrun]
    show (markRateLimited (pre ++ a :: post) email (some (minFrom r0 rs))
        settings modelId dflt now).1 = _
    rw [hmk]
  · simp only [markAccount]
    rw [lookup_updateAssoc_self, hcd]
  · intro k hk
    exact lookup_updateAssoc_ne a.modelRateLimits modelId k _ hk
  · rcases minFrom_mem r0 rs with h | h
    · rw [h]
      exact List.mem_cons_self r0 rs
    · exact List.mem_cons_of_mem r0 h
  · intro r hr
    rcases List.mem_cons.1 hr with h | h
    · rw [h]
      exact minFrom_le_self r0 rs
    · exact minFrom_le_mem r0 r rs h
  · intro resps1 resps2 hno
    have hok := runEndpoints_ok resps1 resps2 none hno
    constructor
    · show runEndpoints (resps1 ++ .ok :: resps2) none = _
      exact hok
    · show afterEndpoints (pre ++ a :: post) email settings modelId dflt now
          (runEndpoints (resps1 ++ .ok :: resps2) none) = _
      rw [hok]
      rfl

/-- Witness for C3 at a concrete input. -/
theorem accountAttempt_429_spec_witness :
    (accountAttempt [acctBase] "a@x" { cooldownDurationMs := none } "m" 60000 0
        ([10000, 20000].map fun r => .status429 (some r))).2 =
      .raise (.rate429 (some (minFrom 10000 [20000]))) ∧
    (accountAttempt [acctBase] "a@x" { cooldownDurationMs := none } "m" 60000 0
        ([10000, 20000].map fun r => .status429 (some r))).1 =
      [markAccount acctBase (some (minFrom 10000 [20000]))
        { cooldownDurationMs := none } "m" 60000 0] := by
  have h := accountAttempt_429_spec [] [] acctBase "a@x"
    { cooldownDurationMs := none } "m" 60000 0 [20000] 10000
    (by simp) (by decide) (by decide) (by decide)
  exact ⟨h.1, h.2.1⟩

/-- Witness for C5 at a concrete input. -/
theorem getMinWaitTimeMs_spec_witness :
    getMinWaitTimeMs [acctLimited] (some "m") 60000 1000 ∈
      positiveWaits [acctLimited] "m" 1000 ∧
    getMinWaitTimeMs [acctLimited] (some "m") 60000 1000 ≤ 4000 :=
  (getMinWaitTimeMs_spec [acctLimited] "m" 60000 1000 (by decide)).2.2
    (by decide) 4000 (by decide)

/-- C8: `pickNext` first clears expired rate-limit records, then scans
positions `(activeIndex+1) mod N, …, activeIndex` (after clamping an
out-of-range index to 0) in that order and returns the first usable account
(the `find?` over `scanOrder`), setting `activeIndex` to that account's
position and its `lastUsed` to `now`; if no scanned position holds a usable
account it returns null, leaves `activeIndex` unchanged, and only the
expiry-clearing mutation remains. -/
theorem pickNext_scan_spec (accounts : List Account) (cur : Nat)
    (modelId : Option String) (now : Int) :
    (∀ idx a,
      (scanOrder (clearExpiredLimits accounts now).length
          (if cur ≥ (clearExpiredLimits accounts now).length then 0 else cur)).find?
        (fun j => isAccountUsable (clearExpiredLimits accounts now)[j]? modelId now) =
        some idx →
      (clearExpiredLimits accounts now)[idx]? = some a →
      pickNext accounts cur modelId now =
        { accounts := (clearExpiredLimits accounts now).set idx (touchLastUsed a now),
          account := some (touchLastUsed a now), newIndex := idx }) ∧
    ((∀ j ∈ scanOrder (clearExpiredLimits accounts now).length
          (if cur ≥ (clearExpiredLimits accounts now).length then 0 else cur),
        isAccountUsable (clearExpiredLimits accounts now)[j]? modelId now = false) →
      pickNext accounts cur modelId now =
        { accounts := clearExpiredLimits accounts now, account := none,
          newIndex := cur }) := by
  constructor
  · intro idx a hfind ha
    exact pickNext_eq_found accounts cur modelId now idx a hfind ha
  · intro hall
    refine pickNext_eq_none accounts cur modelId now ?_
    rw [scanIdx, List.find?_eq_none]
    intro j hj
    rw [hall j hj]
    simp

/-- Witness for C8 at a concrete input: the rate-limited account at the
sticky position is skipped and the next usable one is selected. -/
theorem pickNext_scan_spec_witness :
    pickNext [acctLimited, acctBase] 0 (some "m") 1000 =
      { accounts := (clearExpiredLimits [acctLimited, acctBase] 1000).set 1
          (touchLastUsed acctBase 1000),
        account := some (touchLastUsed acctBase 1000), newIndex := 1 } :=
  (pickNext_scan_spec [acctLimited, acctBase] 0 (some "m") 1000).1 1 acctBase
    (by decide) (by decide)

/-- C6 counterexample: on a non-empty account list with no usable account,
`pickNext` returns an out-of-range incoming index unchanged instead of a
clamped in-range one. -/
theorem activeIndex_out_of_range_counterexample :
    (pickNext [acctInvalid] 5 (some "m") 0).newIndex = 5 ∧
    ¬((pickNext [acctInvalid] 5 (some "m") 0).newIndex < [acctInvalid].length) := by
  decide

/-- C6 amended: on a non-empty account list, `getCurrentStickyAccount`
always returns an in-range index and clamps an out-of-range incoming index
to 0; `pickNext` and `pickStickyAccount` return an in-range index whenever
the incoming index is in range or an account is returned; when no account
is usable they pass the incoming index through unchanged, so an
out-of-range incoming index can persist. -/
theorem activeIndex_range_spec (accounts : List Account) (cur : Nat)
    (modelId : Option String) (maxW now : Int) (hne : accounts ≠ []) :
    (getCurrentStickyAccount accounts cur modelId now).newIndex < accounts.length ∧
    (cur ≥ accounts.length →
      (getCurrentStickyAccount accounts cur modelId now).newIndex = 0) ∧
    (cur < accounts.length ∨ (pickNext accounts cur modelId now).account.isSome = true →
      (pickNext accounts cur modelId now).newIndex < accounts.length) ∧
    (cur < accounts.length ∨
        (pickStickyAccount accounts cur modelId maxW now).account.isSome = true →
      (pickStickyAccount accounts cur modelId maxW now).newIndex < accounts.length) := by
  have hlen := length_clearExpiredLimits accounts now
  have hlen0 : 0 < accounts.length := List.length_pos.2 hne
  have hite : (if cur ≥ accounts.length then 0 else cur) < accounts.length := by
    by_cases h : cur ≥ accounts.length
    · rw [if_pos h]
      omega
    · rw [if_neg h]
      omega
  obtain ⟨sticky, hs⟩ : ∃ s,
      (clearExpiredLimits accounts now)[if cur ≥ accounts.length then 0 else cur]? =
        some s :=
    ⟨(clearExpiredLimits accounts now).get
        ⟨if cur ≥ accounts.length then 0 else cur, by omega⟩,
      by rw [List.getElem?_eq_getElem (by omega)]; rfl⟩
  have hsticknew : (getCurrentStickyAccount accounts cur modelId now).newIndex =
      (if cur ≥ accounts.length then 0 else cur) := by
    by_cases hu : isAccountUsable (some sticky) modelId now = true
    · rw [getCurrentSticky_hit accounts cur modelId now sticky hne hs hu]
    · rw [getCurrentSticky_miss accounts cur modelId now sticky hne hs
        (by simpa using hu)]
  refine ⟨?_, ?_, ?_, ?_⟩
  · rw [hsticknew]
    exact hite
  · intro hge
    rw [hsticknew, if_pos hge]
  · intro hc
    rcases pickNext_newIndex_cases accounts cur modelId now with ⟨h1, h2⟩ | ⟨h1, h2⟩
    · rcases hc with hcl | hcs
      · rw [h2]
        exact hcl
      · rw [h1] at hcs
        simp at hcs
    · exact h2
  · intro hc
    by_cases hu : isAccountUsable (some sticky) modelId now = true
    · rw [pickSticky_hit accounts cur modelId maxW now sticky hne hs hu]
      exact hite
    · have hu2 : isAccountUsable (some sticky) modelId now = false := by simpa using hu
      by_cases hav : getAvailableAccounts (clearExpiredLimits accounts now) modelId now = []
      · rw [pickSticky_noavail accounts cur modelId maxW now sticky hne hs hu2 hav]
        rcases stickyTail_newIndex_cases (clearExpiredLimits accounts now) cur modelId
            maxW now with ⟨h1, h2⟩ | ⟨h1, h2⟩
        · rcases hc with hcl | hcs
          · rw [h2]
            exact hcl
          · rw [pickSticky_noavail accounts cur modelId maxW now sticky hne hs hu2 hav,
              h1] at hcs
            simp at hcs
        · rw [hlen] at h2
          exact h2
      · obtain ⟨j, a, hjne, hjlt, hja, hua, heq⟩ :=
          pickSticky_miss_avail accounts cur modelId maxW now sticky hne hs hu2 hav
        rw [heq]
        exact hjlt

/-- Witness for the amended C6 at a concrete input. -/
theorem activeIndex_range_spec_witness :
    (getCurrentStickyAccount [acctBase] 0 (some "m") 0).newIndex < [acctBase].length ∧
    (pickNext [acctBase] 0 (some "m") 0).newIndex < [acctBase].length :=
  ⟨(activeIndex_range_spec [acctBase] 0 (some "m") 120000 0 (by simp)).1,
   (activeIndex_range_spec [acctBase] 0 (some "m") 120000 0 (by simp)).2.2.1
     (Or.inl (by decide))⟩

/-- C1: for an in-range index and a non-empty model, `pickStickyAccount`
(1) returns the account at `activeIndex` with `waitMs = 0` whenever that
account (after lazily clearing expired limits) is usable for the model;
(2) when the sticky account is not usable but some other account is usable,
it advances to and returns a different usable account with `waitMs = 0`;
and (3) it returns `{account: null, waitMs = resetTime - now}` exactly when
no account is usable, the sticky account is not invalid, and its limit for
the model is rate-limited with remaining time in `(0, MaxWaitBeforeError]`.
-/
theorem pickStickyAccount_spec (accounts : List Account) (cur : Nat) (m : String)
    (maxW now : Int) (hm : m ≠ "") (hnow : 0 ≤ now)
    (hcur : cur < accounts.length) :
    (∀ sticky, (clearExpiredLimits accounts now)[cur]? = some sticky →
      isAccountUsable (some sticky) (some m) now = true →
      pickStickyAccount accounts cur (some m) maxW now =
        { accounts := (clearExpiredLimits accounts now).set cur (touchLastUsed sticky now),
          account := some (touchLastUsed sticky now), waitMs := 0, newIndex := cur }) ∧
    (∀ sticky, (clearExpiredLimits accounts now)[cur]? = some sticky →
      isAccountUsable (some sticky) (some m) now = false →
      getAvailableAccounts (clearExpiredLimits accounts now) (some m) now ≠ [] →
      ∃ j a, j ≠ cur ∧ j < accounts.length ∧
        (clearExpiredLimits accounts now)[j]? = some a ∧
        isAccountUsable (some a) (some m) now = true ∧
        pickStickyAccount accounts cur (some m) maxW now =
          { accounts := (clearExpiredLimits accounts now).set j (touchLastUsed a now),
            account := some (touchLastUsed a now), waitMs := 0, newIndex := j }) ∧
    (∀ sticky l rt, (clearExpiredLimits accounts now)[cur]? = some sticky →
      (∀ b ∈ clearExpiredLimits accounts now, availablePred b (some m) now = false) →
      sticky.isInvalid = false →
      sticky.modelRateLimits.lookup m = some l → l.isRateLimited = true →
      l.resetTime = some rt → 0 < rt - now → rt - now ≤ maxW →
      pickStickyAccount accounts cur (some m) maxW now =
        { accounts := clearExpiredLimits accounts now, account := none,
          waitMs := rt - now, newIndex := cur }) ∧
    (((pickStickyAccount accounts cur (some m) maxW now).account = none ∧
       0 < (pickStickyAccount accounts cur (some m) maxW now).waitMs) ↔
      ((∀ b ∈ clearExpiredLimits accounts now, availablePred b (some m) now = false) ∧
       ∃ sticky, (clearExpiredLimits accounts now)[cur]? = some sticky ∧
         sticky.isInvalid = false ∧
         ∃ l rt, sticky.modelRateLimits.lookup m = some l ∧ l.isRateLimited = true ∧
           l.resetTime = some rt ∧ 0 < rt - now ∧ rt - now ≤ maxW)) := by
  have hne : accounts ≠ [] := by
    intro h
    rw [h] at hcur
    simp at hcur
  have hlen := length_clearExpiredLimits accounts now
  have hcur2 : cur < (clearExpiredLimits accounts now).length := by omega
  have hiteeq : (if cur ≥ accounts.length then 0 else cur) = cur := if_neg (by omega)
  have hpart1 : ∀ sticky, (clearExpiredLimits accounts now)[cur]? = some sticky →
      isAccountUsable (some sticky) (some m) now = true →
      pickStickyAccount accounts cur (some m) maxW now =
        { accounts := (clearExpiredLimits accounts now).set cur (touchLastUsed sticky now),
          account := some (touchLastUsed sticky now), waitMs := 0, newIndex := cur } := by
    intro sticky hs hu
    have hs2 : (clearExpiredLimits accounts now)[if cur ≥ accounts.length then 0 else cur]? =
        some sticky := by
      rw [hiteeq]
      exact hs
    have h := pickSticky_hit accounts cur (some m) maxW now sticky hne hs2 hu
    rw [hiteeq] at h
    exact h
  have hpart2 : ∀ sticky, (clearExpiredLimits accounts now)[cur]? = some sticky →
      isAccountUsable (some sticky) (some m) now = false →
      getAvailableAccounts (clearExpiredLimits accounts now) (some m) now ≠ [] →
      ∃ j a, j ≠ cur ∧ j < accounts.length ∧
        (clearExpiredLimits accounts now)[j]? = some a ∧
        isAccountUsable (some a) (some m) now = true ∧
        pickStickyAccount accounts cur (some m) maxW now =
          { accounts := (clearExpiredLimits accounts now).set j (touchLastUsed a now),
            account := some (touchLastUsed a now), waitMs := 0, newIndex := j } := by
    intro sticky hs hu hav
    have hs2 : (clearExpiredLimits accounts now)[if cur ≥ accounts.length then 0 else cur]? =
        some sticky := by
      rw [hiteeq]
      exact hs
    obtain ⟨j, a, hjne, hjlt, hja, hua, heq⟩ :=
      pickSticky_miss_avail accounts cur (some m) maxW now sticky hne hs2 hu hav
    rw [hiteeq] at hjne
    exact ⟨j, a, hjne, hjlt, hja, hua, heq⟩
  have hpart3 : ∀ sticky l rt, (clearExpiredLimits accounts now)[cur]? = some sticky →
      (∀ b ∈ clearExpiredLimits accounts now, availablePred b (some m) now = false) →
      sticky.isInvalid = false →
      sticky.modelRateLimits.lookup m = some l → l.isRateLimited = true →
      l.resetTime = some rt → 0 < rt - now → rt - now ≤ maxW →
      pickStickyAccount accounts cur (some m) maxW now =
        { accounts := clearExpiredLimits accounts now, account := none,
          waitMs := rt - now, newIndex := cur } := by
    intro sticky l rt hs hall hinv hl hrl hrt h1 h2
    have hmem : sticky ∈ clearExpiredLimits accounts now := List.getElem?_mem hs
    have hu : isAccountUsable (some sticky) (some m) now = false := by
      rw [isAccountUsable_some]
      exact hall sticky hmem
    have hs2 : (clearExpiredLimits accounts now)[if cur ≥ accounts.length then 0 else cur]? =
        some sticky := by
      rw [hiteeq]
      exact hs
    have hav : getAvailableAccounts (clearExpiredLimits accounts now) (some m) now = [] :=
      (available_eq_nil_iff _ _ _).2 hall
    rw [pickSticky_noavail accounts cur (some m) maxW now sticky hne hs2 hu hav]
    have hrt0 : rt ≠ 0 := by omega
    have hw := shouldWait_eq_true (clearExpiredLimits accounts now) cur m maxW now
      sticky l rt hcur2 hs hm hinv hl hrl hrt hrt0 h1 h2
    rw [stickyTail_wait (clearExpiredLimits accounts now) cur (some m) maxW now
      (by rw [hw]), hw]
  refine ⟨hpart1, hpart2, hpart3, ?_⟩
  constructor
  · rintro ⟨hnone, hpos⟩
    obtain ⟨sticky, hs⟩ : ∃ s, (clearExpiredLimits accounts now)[cur]? = some s :=
      ⟨(clearExpiredLimits accounts now).get ⟨cur, hcur2⟩,
        by rw [List.getElem?_eq_getElem hcur2]; rfl⟩
    have hs2 : (clearExpiredLimits accounts now)[if cur ≥ accounts.length then 0 else cur]? =
        some sticky := by
      rw [hiteeq]
      exact hs
    by_cases hu : isAccountUsable (some sticky) (some m) now = true
    · exfalso
      rw [pickSticky_hit accounts cur (some m) maxW now sticky hne hs2 hu] at hnone
      simp at hnone
    · have hu2 : isAccountUsable (some sticky) (some m) now = false := by simpa using hu
      by_cases hav : getAvailableAccounts (clearExpiredLimits accounts now) (some m) now = []
      · have hall : ∀ b ∈ clearExpiredLimits accounts now,
            availablePred b (some m) now = false := (available_eq_nil_iff _ _ _).1 hav
        by_cases hw : (shouldWaitForCurrentAccount (clearExpiredLimits accounts now) cur
            (some m) maxW now).shouldWait = true
        · obtain ⟨hinv, l, rt, hl, hrl, hrt, hr1, hr2, heqw⟩ :=
            shouldWait_inv (clearExpiredLimits accounts now) cur m maxW now sticky
              hcur2 hs hw
          exact ⟨hall, sticky, hs, hinv, l, rt, hl, hrl, hrt, hr1, hr2⟩
        · exfalso
          rw [pickSticky_noavail accounts cur (some m) maxW now sticky hne hs2 hu2 hav,
            stickyTail_nowait (clearExpiredLimits accounts now) cur (some m) maxW now
              (by simpa using hw)] at hpos
          simp at hpos
      · exfalso
        obtain ⟨j, a, hjne, hjlt, hja, hua, heq⟩ :=
          pickSticky_miss_avail accounts cur (some m) maxW now sticky hne hs2 hu2 hav
        rw [heq] at hnone
        simp at hnone
  · rintro ⟨hall, sticky, hs, hinv, l, rt, hl, hrl, hrt, hr1, hr2⟩
    rw [hpart3 sticky l rt hs hall hinv hl hrl hrt hr1 hr2]
    exact ⟨rfl, hr1⟩

/-- Witness for C1 at a concrete input: the usable sticky account is kept. -/
theorem pickStickyAccount_spec_witness :
    pickStickyAccount [acctLimited, acctBase] 1 (some "m") 120000 1000 =
      { accounts := (clearExpiredLimits [acctLimited, acctBase] 1000).set 1
          (touchLastUsed acctBase 1000),
        account := some (touchLastUsed acctBase 1000), waitMs := 0, newIndex := 1 } :=
  (pickStickyAccount_spec [acctLimited, acctBase] 1 "m" 120000 1000
      (by decide) (by decide) (by decide)).1 acctBase (by decide) (by decide)

/-- Witness for C10 at a concrete input. -/
theorem rate_limit_views_disagree_witness :
    isAllRateLimited [acctDisabled] (some "m") 0 = false ∧
    acctDisabled ∉ getAvailableAccounts [acctDisabled] (some "m") 0 :=
  ⟨(rate_limit_views_disagree [acctDisabled] "m" 0 acctDisabled (by decide)
      (by decide) (by decide) (by decide)).1,
   (rate_limit_views_disagree [acctDisabled] "m" 0 acctDisabled (by decide)
      (by decide) (by decide) (by decide)).2.1⟩
